import Mathlib

/- Shallow embedding of the CorticalAI function-call detection and dispatch
   pipeline (src/framework.js and the v2 server source file).

   Modelling conventions:
   * JS strings are lists of characters (`Str`).
   * JS `null`/`undefined` inputs are `Option`; a fallible JS routine (one
     that can throw) returns `Option` or an explicit failure value.
   * External effects are explicit: the outcome of `fetch` and of
     `JSON.parse` on a response body is an input parameter, and the
     commands handed to `execAsync` are returned as an explicit spawn log.
   * The configurable function-call pattern is modelled at its default
     value `^FUNCTION:(\w+):(.+)$` (APP_FUNCTION_PATTERN unset). -/

/-- JS strings are modelled as lists of characters. -/
abbrev Str := List Char

/-- Embed a Lean string literal as a model string. -/
def str (s : String) : Str := s.toList

/-- Characters removed by JavaScript `String.prototype.trim` (the WhiteSpace
and LineTerminator productions; the members that occur in practice). -/
def isJsWhitespace (c : Char) : Bool :=
  c = ' ' || c = '\t' || c = '\n' || c = '\r' || c = '\x0b' || c = '\x0c' ||
  c = '\u00A0' || c = '\u2028' || c = '\u2029' || c = '\uFEFF' || c = '\u3000'

/-- The line-terminator class that `.` in a JavaScript regular expression
does not match. -/
def isLineTerminator (c : Char) : Bool :=
  c = '\n' || c = '\r' || c = '\u2028' || c = '\u2029'

/-- The `\w` character class of JavaScript regular expressions:
`[A-Za-z0-9_]`. -/
def isWordChar (c : Char) : Bool :=
  ('A' ≤ c && c ≤ 'Z') || ('a' ≤ c && c ≤ 'z') || ('0' ≤ c && c ≤ '9') || c = '_'

/-- JavaScript `String.prototype.trim`. -/
def jsTrim (s : Str) : Str :=
  ((s.dropWhile isJsWhitespace).reverse.dropWhile isJsWhitespace).reverse

/-- JavaScript `String.prototype.startsWith`: `jsStartsWith s p` means the
string `s` starts with the literal `p`. -/
def jsStartsWith : Str → Str → Bool
  | _, [] => true
  | [], _ :: _ => false
  | c :: s, d :: p => if c = d then jsStartsWith s p else false

/-- The literal head of the default function-call pattern
`^FUNCTION:(\w+):(.+)$`. -/
def functionCallHeader : Str := str "FUNCTION:"

/-- Matching the default pattern `^FUNCTION:(\w+):(.+)$` against a whole
text (`String.prototype.match` with an anchored, non-global, single-line
regular expression).  This is a deterministic account of the regex engine:
`(\w+)` is greedy, and since `:` is not a word character no backtracked
split other than the maximal word-character run can be followed by the
literal `:`; `(.+)$` succeeds exactly when the remainder is nonempty, free
of line terminators, and runs to the end of the input (without the `m`
flag, `$` in JavaScript matches only at the very end). -/
def matchFunctionPattern (t : Str) : Option (Str × Str) :=
  if jsStartsWith t functionCallHeader then
    let rest := t.drop functionCallHeader.length
    let w := rest.takeWhile isWordChar
    match rest.dropWhile isWordChar with
    | ':' :: args =>
        if w ≠ [] ∧ args ≠ [] ∧ (∀ c ∈ args, isLineTerminator c = false) then
          some (w, args)
        else none
    | _ => none
  else none

/-- JS truthiness of an optional string value: `undefined` and the empty
string are falsy, every other string is truthy. -/
def jsTruthyStr : Option Str → Bool
  | some s => !s.isEmpty
  | none => false

/-- A JS data-payload object; the three keys used by the built-in browser
actions.  An absent key models an `undefined` property. -/
structure JsObj where
  message : Option Str := none
  url : Option Str := none
  text : Option Str := none
  deriving DecidableEq, Repr

/-- The duck-typed result object returned by a function handler, as
inspected by the chat routes (`success`, `browserAction`, `data`,
`results`, `error` keys). -/
structure HandlerResult where
  success : Bool
  browserAction : Option Str := none
  data : JsObj := {}
  results : Option (List Str) := none
  error : Option Str := none
  deriving DecidableEq, Repr

/-- A registered function definition: the argument parser (which may throw,
modelled by `Option`) and the handler, modelled by the result it produces
for given parsed arguments.  `α` is the parsed-argument type. -/
structure FuncDef (α : Type) where
  parseArgs : Str → Option α
  handler : α → HandlerResult
  description : Option Str := none

/-- An entry of the function registry: `register` stores
`{type, name, ...definition}`. -/
structure RegEntry (α : Type) where
  type : Str
  name : Str
  defn : FuncDef α

/-- The registry's backing JS `Map`, as an insertion-ordered association
list (a `Map` never holds two entries with the same key). -/
abbrev Registry (α : Type) := List (Str × RegEntry α)

/-- JS `Map.prototype.set`: overwrite the entry in place (keeping insertion
order) when the key is present, append otherwise. -/
def jsMapSet {β : Type} : List (Str × β) → Str → β → List (Str × β)
  | [], k, v => [(k, v)]
  | p :: rest, k, v => if p.1 = k then (k, v) :: rest else p :: jsMapSet rest k v

/-- JS `Map.prototype.get`. -/
def jsMapGet {β : Type} : List (Str × β) → Str → Option β
  | [], _ => none
  | p :: rest, k => if p.1 = k then some p.2 else jsMapGet rest k

/-- Number of stored entries under a given name. -/
def countKey {β : Type} : List (Str × β) → Str → Nat
  | [], _ => 0
  | p :: rest, k => (if p.1 = k then 1 else 0) + countKey rest k

/-- `FunctionRegistry.register(type, name, definition)`:
`functions.set(name, {type, name, ...definition})`. -/
def register {α : Type} (m : Registry α) (type name : Str) (d : FuncDef α) :
    Registry α :=
  jsMapSet m name ⟨type, name, d⟩

/-- `FunctionRegistry.get(name)`. -/
def regGet {α : Type} (m : Registry α) (name : Str) : Option (RegEntry α) :=
  jsMapGet m name

/-- `LLMFramework.detectFunctionCall` (src/framework.js, and the v2 server
variant): null/empty guard (`if (!text) return null`; absent in the v2
variant but unreachable there for the claims below), outer trim, match
against the default pattern, registry lookup, then the registered argument
parser.  An unknown name or a throwing parser degrades to `none`.  The
`none` input models JS `null`/`undefined`. -/
def detectFunctionCall {α : Type} (reg : Registry α) (text : Option Str) :
    Option (Str × α) :=
  match text with
  | none => none
  | some t =>
    if t.isEmpty then none
    else
      match matchFunctionPattern (jsTrim t) with
      | none => none
      | some (funcName, rawArgs) =>
        match regGet reg funcName with
        | none => none
        | some func =>
          match func.defn.parseArgs rawArgs with
          | some args => some (funcName, args)
          | none => none

/-- Built-in `showAlert` handler: success tagged `alert` with
`data.message`. -/
def showAlertHandler (message : Str) : HandlerResult :=
  { success := true, browserAction := some (str "alert"),
    data := { message := some message } }

/-- Built-in `openWindow` handler: success tagged `openWindow` with
`data.url`. -/
def openWindowHandler (url : Str) : HandlerResult :=
  { success := true, browserAction := some (str "openWindow"),
    data := { url := some url } }

/-- Built-in `showModal` handler: success tagged `modal` with `data.url`. -/
def showModalHandler (url : Str) : HandlerResult :=
  { success := true, browserAction := some (str "modal"),
    data := { url := some url } }

/-- Built-in `speak` handler: success tagged `speak` with `data.text`. -/
def speakHandler (text : Str) : HandlerResult :=
  { success := true, browserAction := some (str "speak"),
    data := { text := some text } }

/-- Built-in definition for `showAlert`; `parseArgs` is `raw => raw.trim()`
and never throws. -/
def showAlertDef : FuncDef Str :=
  { parseArgs := fun raw => some (jsTrim raw), handler := showAlertHandler,
    description := some (str "Show an alert dialog in the browser") }

/-- Built-in definition for `openWindow`. -/
def openWindowDef : FuncDef Str :=
  { parseArgs := fun raw => some (jsTrim raw), handler := openWindowHandler,
    description := some (str "Open a URL in a new browser window") }

/-- Built-in definition for `showModal`. -/
def showModalDef : FuncDef Str :=
  { parseArgs := fun raw => some (jsTrim raw), handler := showModalHandler,
    description := some (str "Display a modal with embedded content") }

/-- Built-in definition for `speak`. -/
def speakDef : FuncDef Str :=
  { parseArgs := fun raw => some (jsTrim raw), handler := speakHandler,
    description := some (str "Use text-to-speech to speak text aloud") }

/-- `FunctionRegistry.registerBuiltInFunctions`: the four browser actions
registered in source order at construction. -/
def builtinRegistry : Registry Str :=
  register
    (register
      (register
        (register [] (str "browser") (str "showAlert") showAlertDef)
        (str "browser") (str "openWindow") openWindowDef)
      (str "browser") (str "showModal") showModalDef)
    (str "browser") (str "speak") speakDef

/-- JS template interpolation of a possibly-`undefined` string value. -/
def jsInterp (o : Option Str) : Str := o.getD (str "undefined")

/-- `LLMFramework.getBrowserActionConfirmation` (lookup table in the v2
server source; the `switch` in src/framework.js is identical). -/
def getBrowserActionConfirmation (action : Str) (data : JsObj) : Str :=
  if action = str "alert" then
    str "Alert displayed: \"" ++ jsInterp data.message ++ str "\""
  else if action = str "openWindow" then
    str "Opening new tab: " ++ jsInterp data.url
  else if action = str "modal" then
    str "Opening modal with: " ++ jsInterp data.url
  else if action = str "speak" then
    str "Speaking: \"" ++ jsInterp data.text ++ str "\""
  else
    str "Browser action completed: " ++ action

/-- A typed event written to the live connection (the JSON `type`
discriminator of the SSE payloads). -/
inductive StreamEvent where
  | token (text : Str)
  | status (text : Str)
  | functionResult (data : HandlerResult)
  | searchResults (results : List Str) (totalResults : Nat)
  | browserAction (action : Str) (data : JsObj)
  | error (msg : Str)
  | done
  deriving DecidableEq, Repr

/-- What `POST /api/v1/chat/stream` does with an inbound message:
either handles a detected function call itself (emitting the listed
events) or falls through to the plain LLM streaming path (an external
collaborator, not modelled further). -/
inductive RouteOutcome where
  | functionPath (events : List StreamEvent)
  | llmPath
  deriving DecidableEq, Repr

/-- The function-call branch of the v2 server's `POST /api/v1/chat/stream`
route: status event, defensive registry re-lookup (a miss throws into the
route's catch, which emits an error event), handler invocation, result
classification (`browserAction` / `results`-or-`success` / nothing), then
the terminal `done`. -/
def chatStreamHandler {α : Type} (reg : Registry α) (message : Str) :
    RouteOutcome :=
  match detectFunctionCall reg (some message) with
  | none => .llmPath
  | some (funcName, args) =>
    let opening := [StreamEvent.status (str "Processing your request...")]
    match regGet reg funcName with
    | none =>
      .functionPath
        (opening ++ [.error (str "Function " ++ funcName ++ str " not found")])
    | some func =>
      let result := func.defn.handler args
      let middle :=
        if result.success && jsTruthyStr result.browserAction then
          let action := result.browserAction.getD []
          [StreamEvent.browserAction action result.data,
           StreamEvent.token (getBrowserActionConfirmation action result.data)]
        else if result.results.isSome || result.success then
          [StreamEvent.functionResult result]
        else []
      .functionPath (opening ++ middle ++ [.done])

/-- The global security flags of the configuration. -/
structure SecurityConfig where
  allowCommands : Bool := false
  allowScripts : Bool := false
  deriving DecidableEq, Repr

/-- `this.config.security?.allowCommands` with JS optional chaining: an
absent `security` section reads as falsy. -/
def jsAllowCommands : Option SecurityConfig → Bool
  | some s => s.allowCommands
  | none => false

/-- Configuration accepted by `FunctionRegistry.registerCommand`:
`command` is either a static string or a function of the parsed
arguments. -/
structure CmdConfig (α : Type) where
  command : Str ⊕ (α → Str)
  allowedCommands : Option (List Str) := none
  timeout : Option Nat := none
  maxBuffer : Option Nat := none

/-- The concrete command line computed for an invocation. -/
def resolveCommand {α : Type} (cfg : CmdConfig α) (args : α) : Str :=
  match cfg.command with
  | .inl s => s
  | .inr f => f args

/-- The `command` field reported by the catch branch: `'dynamic'` for a
function-valued command, the static string otherwise. -/
def cmdNameField {α : Type} (cfg : CmdConfig α) : Str :=
  match cfg.command with
  | .inl s => s
  | .inr _ => str "dynamic"

/-- Outcome of `execAsync`: resolution with captured output, or rejection
(non-zero exit, timeout, output-size overflow). -/
inductive ExecOutcome where
  | ok (stdout stderr : Str)
  | err (msg : Str)

/-- The result object produced by the command handler. -/
structure CmdResult where
  success : Bool
  stdout : Option Str := none
  stderr : Option Str := none
  error : Option Str := none
  command : Option Str := none
  deriving DecidableEq, Repr

/-- The handler installed by `FunctionRegistry.registerCommand`: global
security gate, command resolution, allow-list check
(`config.allowedCommands && !config.allowedCommands.some(cmd =>
command.startsWith(cmd))`; note an empty allow-list is truthy in JS and
blocks everything, matching `some []` here), then `execAsync`.  Returns
the result together with the list of command lines actually handed to
`execAsync` (the spawn log). -/
def commandHandler {α : Type} (security : Option SecurityConfig)
    (cfg : CmdConfig α) (execAsync : Str → ExecOutcome) (args : α) :
    CmdResult × List Str :=
  if !(jsAllowCommands security) then
    ({ success := false,
       error := some (str "Command execution is disabled for security"),
       command := some (cmdNameField cfg) }, [])
  else
    let command := resolveCommand cfg args
    let blocked :=
      match cfg.allowedCommands with
      | some allowed => !(allowed.any (fun c => jsStartsWith command c))
      | none => false
    if blocked then
      ({ success := false,
         error := some (str "Command not allowed: " ++ command),
         command := some (cmdNameField cfg) }, [])
    else
      match execAsync command with
      | .ok out errOut =>
        ({ success := true, stdout := some out, stderr := some errOut,
           command := some command }, [command])
      | .err m =>
        ({ success := false, error := some m,
           command := some (cmdNameField cfg) }, [command])

/-- An HTTP response as seen by the API handler after `fetch` resolves:
`ok`/`status`/`statusText` and the body read as text by
`response.text()`.  The declared Content-Type header is carried to record
that the handler never consults it. -/
structure ApiResponse where
  ok : Bool
  status : Nat
  statusText : Str
  contentTypeHeader : Option Str := none
  bodyText : Str
  deriving DecidableEq, Repr

/-- Result of the API handler: parsed (possibly transformed) data, or the
`{success: false, error}` object produced by a catch branch. -/
inductive ApiResult (J : Type) where
  | value (data : J)
  | failure (error : Str)
  deriving DecidableEq, Repr

/-- Decimal rendering of a numeric HTTP status for message interpolation. -/
def natStr (n : Nat) : Str := (toString n).toList

/-- The handler installed by `FunctionRegistry.registerAPI`: `fetched` is
the outcome of the external `fetch` (network rejection, or a response);
`jsonParse` models `JSON.parse` applied to the body text (`none` models a
throw); `J` is the parsed-JSON type.  A non-ok response throws into the
catch; an unparsable body yields the generic invalid-format failure; an
optional `transform` maps parsed data and the original arguments to the
final value. -/
def apiHandler {J α : Type} (fetched : Except Str ApiResponse)
    (jsonParse : Str → Option J) (transform : Option (J → α → J)) (args : α) :
    ApiResult J :=
  match fetched with
  | .error m => .failure m
  | .ok resp =>
    if !resp.ok then
      .failure (str "HTTP " ++ natStr resp.status ++ str ": " ++ resp.statusText)
    else
      match jsonParse resp.bodyText with
      | none => .failure (str "Invalid response format")
      | some data =>
        match transform with
        | some t => .value (t data args)
        | none => .value data

/-- A parsed line of the backend's newline-delimited JSON stream: an
incremental `response` fragment and the terminal `done` flag. -/
structure OllamaRecord where
  response : Option Str := none
  done : Bool := false
  deriving DecidableEq, Repr

/-- The outgoing connection: the events written so far and node's
`writableEnded` flag. -/
structure ResState where
  log : List StreamEvent := []
  writableEnded : Bool := false
  deriving DecidableEq, Repr

/-- `res.write` of one SSE event (the write attempt is recorded
unconditionally, as in the source). -/
def resWrite (r : ResState) (e : StreamEvent) : ResState :=
  { r with log := r.log ++ [e] }

/-- `res.end()`. -/
def resEnd (r : ResState) : ResState :=
  { r with writableEnded := true }

/-- JavaScript `String.prototype.split` with a single-character separator
(always returns at least one segment; `"".split` gives `[""]`). -/
def jsSplit (sep : Char) : Str → List Str
  | [] => [[]]
  | c :: rest =>
    if c = sep then [] :: jsSplit sep rest
    else (c :: (jsSplit sep rest).headI) :: (jsSplit sep rest).tail

/-- One iteration of the `for (const line of lines)` loop in
`processOllamaStream`: skip blank lines, skip unparsable lines (the catch
only logs), write a `token` for a truthy `response` fragment, and on
`done` write the terminal event, end the response and return from the
handler (the `true` flag). -/
def processLine (parseLine : Str → Option OllamaRecord) (res : ResState)
    (line : Str) : ResState × Bool :=
  if (jsTrim line).isEmpty then (res, false)
  else
    match parseLine line with
    | none => (res, false)
    | some rec =>
      let res' :=
        if jsTruthyStr rec.response then
          resWrite res (.token (rec.response.getD []))
        else res
      if rec.done then (resEnd (resWrite res' .done), true)
      else (res', false)

/-- The loop over the complete lines of one data chunk, with the early
`return` on a `done` record. -/
def processLines (parseLine : Str → Option OllamaRecord) (res : ResState) :
    List Str → ResState × Bool
  | [] => (res, false)
  | l :: ls =>
    match processLine parseLine res l with
    | (res', true) => (res', true)
    | (res', false) => processLines parseLine res' ls

/-- The mutable state of `processOllamaStream`: the connection and the
line buffer holding the trailing partial line. -/
structure StreamState where
  res : ResState := {}
  buffer : Str := []
  deriving DecidableEq, Repr

/-- The `'data'` listener: append the chunk to the buffer, split on
newlines, keep the trailing partial segment (`lines.pop() || ""`), process
the complete lines. -/
def onData (parseLine : Str → Option OllamaRecord) (st : StreamState)
    (chunk : Str) : StreamState :=
  let parts := jsSplit '\n' (st.buffer ++ chunk)
  ⟨(processLines parseLine st.res parts.dropLast).1, parts.getLast?.getD []⟩

/-- The `'end'` listener: termination guarded by `writableEnded`, hence
idempotent. -/
def onEnd (res : ResState) : ResState :=
  if !res.writableEnded then resEnd (resWrite res .done) else res

/-- The `'error'` listener: substitute `error` termination, same guard. -/
def onStreamError (msg : Str) (res : ResState) : ResState :=
  if !res.writableEnded then resEnd (resWrite res (.error msg)) else res

/-- How one backend stream concludes after its data events. -/
inductive OllamaTerm where
  | streamEnd
  | streamError (msg : Str)

/-- `LLMFramework.processOllamaStream`, driven by the sequence of `'data'`
chunks delivered by the backend followed by its terminal `'end'` or
`'error'` event.  The stream-timeout timer is a real-time mechanism and is
not modelled. -/
def processOllamaStream (parseLine : Str → Option OllamaRecord)
    (chunks : List Str) (term : OllamaTerm) : ResState :=
  let st := chunks.foldl (onData parseLine) {}
  match term with
  | .streamEnd => onEnd st.res
  | .streamError m => onStreamError m st.res

/-- Events that terminate the logical request: `done`, or an `error`
standing in for it. -/
def isTerminal : StreamEvent → Bool
  | .done => true
  | .error _ => true
  | _ => false

/-- A line whose record makes the data handler terminate the stream. -/
def isStopLine (parseLine : Str → Option OllamaRecord) (line : Str) : Bool :=
  !(jsTrim line).isEmpty &&
    match parseLine line with
    | some rec => rec.done
    | none => false

/-- The complete lines produced cumulatively by the chunk buffering of a
whole stream text: split on newline, trailing partial segment withheld. -/
def completeLines (t : Str) : List Str := (jsSplit '\n' t).dropLast

/-- The trailing partial segment left in the buffer. -/
def leftoverSegment (t : Str) : Str := (jsSplit '\n' t).getLast?.getD []

/-- Exactly one terminal event, and it is the final event of the log. -/
def TerminalOnce (log : List StreamEvent) : Prop :=
  ∃ pre e, log = pre ++ [e] ∧ isTerminal e = true ∧
    ∀ x ∈ pre, isTerminal x = false

/-! Helper lemmas about the JS `Map` model. -/

theorem jsMapGet_set_self {β : Type} (m : List (Str × β)) (k : Str) (v : β) :
    jsMapGet (jsMapSet m k v) k = some v := by
  induction m with
  | nil => simp [jsMapSet, jsMapGet]
  | cons p rest ih =>
    by_cases h : p.1 = k
    · simp [jsMapSet, jsMapGet, h]
    · simp [jsMapSet, jsMapGet, h, ih]

theorem countKey_set {β : Type} (m : List (Str × β)) (k : Str) (v : β)
    (h : countKey m k ≤ 1) : countKey (jsMapSet m k v) k = 1 := by
  induction m with
  | nil => simp [jsMapSet, countKey]
  | cons p rest ih =>
    by_cases hp : p.1 = k
    · have h' : countKey rest k = 0 := by
        simp [countKey, hp] at h
        omega
      simp [jsMapSet, countKey, hp, h']
    · have h' : countKey rest k ≤ 1 := by
        simpa [countKey, hp] using h
      simp [jsMapSet, countKey, hp, ih h']

/-- C7: calling `register` twice with the same name leaves exactly one
registry entry for that name (no uniqueness error), and `get` afterwards
returns the second definition: last write wins.  The hypothesis is the JS
`Map` representation invariant (at most one stored entry per key). -/
theorem register_last_write_wins {α : Type} (m : Registry α)
    (t1 t2 k : Str) (d1 d2 : FuncDef α)
    (h : countKey m k ≤ 1) :
    regGet (register (register m t1 k d1) t2 k d2) k = some ⟨t2, k, d2⟩ ∧
    countKey (register (register m t1 k d1) t2 k d2) k = 1 := by
  refine ⟨jsMapGet_set_self _ _ _, ?_⟩
  apply countKey_set
  have h1 := countKey_set m k (⟨t1, k, d1⟩ : RegEntry α) h
  unfold register
  omega

/-- C7 witness: registering `greet` twice on the built-in registry. -/
theorem register_last_write_wins_witness :
    countKey builtinRegistry (str "greet") ≤ 1 ∧
    (regGet
        (register (register builtinRegistry (str "api") (str "greet")
            { parseArgs := fun r => some r, handler := fun _ => { success := false } })
          (str "api") (str "greet")
          { parseArgs := fun r => some (jsTrim r), handler := fun _ => { success := true } })
        (str "greet") =
      some ⟨str "api", str "greet",
        { parseArgs := fun r => some (jsTrim r), handler := fun _ => { success := true } }⟩ ∧
    countKey
        (register (register builtinRegistry (str "api") (str "greet")
            { parseArgs := fun r => some r, handler := fun _ => { success := false } })
          (str "api") (str "greet")
          { parseArgs := fun r => some (jsTrim r), handler := fun _ => { success := true } })
        (str "greet") = 1) :=
  ⟨by decide,
   register_last_write_wins builtinRegistry (str "api") (str "api") (str "greet")
     { parseArgs := fun r => some r, handler := fun _ => { success := false } }
     { parseArgs := fun r => some (jsTrim r), handler := fun _ => { success := true } }
     (by decide)⟩

/-- C9: each of the four built-in browser-action handlers returns, for
every input string, a success result tagged with its action name and
carrying the single string payload under its data key; none of them can
fail, and each is a pure pass-through (no server-side effect). -/
theorem builtin_browser_handlers_pure (s : Str) :
    showAlertHandler s =
      { success := true, browserAction := some (str "alert"),
        data := { message := some s } } ∧
    openWindowHandler s =
      { success := true, browserAction := some (str "openWindow"),
        data := { url := some s } } ∧
    showModalHandler s =
      { success := true, browserAction := some (str "modal"),
        data := { url := some s } } ∧
    speakHandler s =
      { success := true, browserAction := some (str "speak"),
        data := { text := some s } } :=
  ⟨rfl, rfl, rfl, rfl⟩

/-- C10: the null/empty guard of `detectFunctionCall` makes detection total
over absent inputs: JS `null`/`undefined` (modelled `none`) and the empty
string (falsy under `!text`) both return `null` without throwing. -/
theorem detectFunctionCall_null_guard {α : Type} (reg : Registry α) :
    detectFunctionCall reg none = none ∧
    detectFunctionCall reg (some []) = none :=
  ⟨rfl, rfl⟩

/-- C8: processing the inbound message `FUNCTION:showAlert:Build complete`
emits exactly the event sequence status "Processing your request...",
browser_action alert with data message "Build complete", token
`Alert displayed: "Build complete"`, then done. -/
theorem chatStream_showAlert_scenario :
    chatStreamHandler builtinRegistry (str "FUNCTION:showAlert:Build complete") =
      .functionPath
        [.status (str "Processing your request..."),
         .browserAction (str "alert") { message := some (str "Build complete") },
         .token (str "Alert displayed: \"Build complete\""),
         .done] := by
  decide

/-- C4: with the global command flag disabled, the command handler fails
with the security-disabled message regardless of the definition's
allow-list contents, and the spawn log stays empty (no command is run). -/
theorem commandHandler_security_gate {α : Type} (security : Option SecurityConfig)
    (cfg : CmdConfig α) (execAsync : Str → ExecOutcome) (args : α)
    (h : jsAllowCommands security = false) :
    commandHandler security cfg execAsync args =
      ({ success := false,
         error := some (str "Command execution is disabled for security"),
         command := some (cmdNameField cfg) }, []) := by
  simp [commandHandler, h]

/-- C4 witness: a command definition with a permissive allow-list still
fails when the security section is absent. -/
theorem commandHandler_security_gate_witness :
    jsAllowCommands none = false ∧
    commandHandler none
        ({ command := .inl (str "ls"), allowedCommands := some [str "ls"] } : CmdConfig Str)
        (fun _ => .ok [] []) (str "x") =
      ({ success := false,
         error := some (str "Command execution is disabled for security"),
         command := some (str "ls") }, []) :=
  ⟨rfl,
   commandHandler_security_gate none
     ({ command := .inl (str "ls"), allowedCommands := some [str "ls"] } : CmdConfig Str)
     (fun _ => .ok [] []) (str "x") rfl⟩

/-- C5: with command execution enabled but an allow-list configured, a
computed command that starts with none of the listed prefixes fails with
the not-allowed message and the spawn log stays empty — the failure
happens before any subprocess is spawned. -/
theorem commandHandler_allowlist_gate {α : Type} (security : Option SecurityConfig)
    (cfg : CmdConfig α) (execAsync : Str → ExecOutcome) (args : α) (allowed : List Str)
    (hsec : jsAllowCommands security = true)
    (hlist : cfg.allowedCommands = some allowed)
    (hpref : allowed.any (fun c => jsStartsWith (resolveCommand cfg args) c) = false) :
    commandHandler security cfg execAsync args =
      ({ success := false,
         error := some (str "Command not allowed: " ++ resolveCommand cfg args),
         command := some (cmdNameField cfg) }, []) := by
  simp [commandHandler, hsec, hlist, hpref]

/-- C5 witness: allow-list `["ping"]` against the resolved command
`rm -rf /` fails without spawning (end-to-end scenario 4 of the spec). -/
theorem commandHandler_allowlist_gate_witness :
    jsAllowCommands (some { allowCommands := true }) = true ∧
    ({ command := .inl (str "rm -rf /"), allowedCommands := some [str "ping"] } :
        CmdConfig Str).allowedCommands = some [str "ping"] ∧
    [str "ping"].any
        (fun c => jsStartsWith
          (resolveCommand
            ({ command := .inl (str "rm -rf /"), allowedCommands := some [str "ping"] } :
              CmdConfig Str) (str "x")) c) = false ∧
    commandHandler (some { allowCommands := true })
        ({ command := .inl (str "rm -rf /"), allowedCommands := some [str "ping"] } : CmdConfig Str)
        (fun _ => .ok [] []) (str "x") =
      ({ success := false,
         error := some (str "Command not allowed: " ++ str "rm -rf /"),
         command := some (str "rm -rf /") }, []) :=
  ⟨rfl, rfl, by decide,
   commandHandler_allowlist_gate (some { allowCommands := true })
     ({ command := .inl (str "rm -rf /"), allowedCommands := some [str "ping"] } : CmdConfig Str)
     (fun _ => .ok [] []) (str "x") [str "ping"] rfl rfl (by decide)⟩

/-- C6: for an API-kind function, any resolved response whose body text
the JSON parser rejects — even one declaring `Content-Type:
application/json`, which the handler never reads — produces the failure
value with the literal message "Invalid response format"; the executor is
total and never throws. -/
theorem apiHandler_invalid_body {J α : Type} (resp : ApiResponse)
    (jsonParse : Str → Option J) (transform : Option (J → α → J)) (args : α)
    (hok : resp.ok = true)
    (hparse : jsonParse resp.bodyText = none) :
    apiHandler (.ok resp) jsonParse transform args =
      (.failure (str "Invalid response format") : ApiResult J) := by
  simp [apiHandler, hok, hparse]

/-- C6 witness: an HTML body under a JSON Content-Type header. -/
theorem apiHandler_invalid_body_witness :
    ({ ok := true, status := 200, statusText := str "OK",
       contentTypeHeader := some (str "application/json"),
       bodyText := str "<html>not json</html>" } : ApiResponse).ok = true ∧
    (fun _ : Str => (none : Option Unit))
        ({ ok := true, status := 200, statusText := str "OK",
           contentTypeHeader := some (str "application/json"),
           bodyText := str "<html>not json</html>" } : ApiResponse).bodyText = none ∧
    apiHandler
        (.ok { ok := true, status := 200, statusText := str "OK",
               contentTypeHeader := some (str "application/json"),
               bodyText := str "<html>not json</html>" })
        (fun _ : Str => (none : Option Unit)) none () =
      (.failure (str "Invalid response format") : ApiResult Unit) :=
  ⟨rfl, rfl,
   apiHandler_invalid_body
     { ok := true, status := 200, statusText := str "OK",
       contentTypeHeader := some (str "application/json"),
       bodyText := str "<html>not json</html>" }
     (fun _ : Str => (none : Option Unit)) none () rfl rfl⟩

/-- C1 counterexample: with the registered name `showAlert` and the empty
argument string — which has no leading or trailing whitespace at all —
detection returns `none` instead of a detected call, because the `(.+)`
group of the pattern requires a nonempty argument text. -/
theorem detectFunctionCall_empty_args_counterexample :
    detectFunctionCall builtinRegistry (some (str "FUNCTION:showAlert:")) = none := by
  decide

/-- C2: whenever the pattern matches but the captured name is not
registered, or the registered argument parser throws on the captured
argument text, detection returns `none` — no error is surfaced and the
flow falls through to plain-text handling. -/
theorem detectFunctionCall_silent_fallback {α : Type} (reg : Registry α)
    (t w r : Str)
    (hmatch : matchFunctionPattern (jsTrim t) = some (w, r))
    (hfail : ((regGet reg w).bind (fun f => f.defn.parseArgs r)) = none) :
    detectFunctionCall reg (some t) = none := by
  cases hreg : regGet reg w with
  | none => simp [detectFunctionCall, hmatch, hreg]
  | some f =>
    rw [hreg] at hfail
    simp only [Option.some_bind] at hfail
    simp [detectFunctionCall, hmatch, hreg, hfail]

/-- C2 witness: an unregistered name with a matching pattern. -/
theorem detectFunctionCall_silent_fallback_witness :
    matchFunctionPattern (jsTrim (str "FUNCTION:missingFn:hello")) =
      some (str "missingFn", str "hello") ∧
    ((regGet builtinRegistry (str "missingFn")).bind
        (fun f => f.defn.parseArgs (str "hello"))) = none ∧
    detectFunctionCall builtinRegistry (some (str "FUNCTION:missingFn:hello")) = none :=
  ⟨by decide, by decide,
   detectFunctionCall_silent_fallback builtinRegistry (str "FUNCTION:missingFn:hello")
     (str "missingFn") (str "hello") (by decide) (by decide)⟩

/-! Helper lemmas for the trimming and pattern-matching of a well-formed
call text. -/

theorem dropWhile_eq_self_of_head (p : Char → Bool) (l : Str)
    (h : ∀ c, l.head? = some c → p c = false) : l.dropWhile p = l := by
  cases l with
  | nil => rfl
  | cons c rest => simp [List.dropWhile_cons, h c rfl]

theorem jsTrim_eq_self (l : Str)
    (h1 : ∀ c, l.head? = some c → isJsWhitespace c = false)
    (h2 : ∀ c, l.getLast? = some c → isJsWhitespace c = false) :
    jsTrim l = l := by
  unfold jsTrim
  rw [dropWhile_eq_self_of_head _ l h1]
  rw [dropWhile_eq_self_of_head _ l.reverse
    (fun c hc => h2 c (by rwa [List.head?_reverse] at hc))]
  exact List.reverse_reverse l

theorem jsStartsWith_append (p s : Str) : jsStartsWith (p ++ s) p = true := by
  induction p with
  | nil => simp [jsStartsWith]
  | cons c p ih => simp [jsStartsWith, ih]

theorem takeWhile_append_break (p : Char → Bool) (n : Str) (x : Char) (a : Str)
    (hn : ∀ c ∈ n, p c = true) (hx : p x = false) :
    (n ++ x :: a).takeWhile p = n ∧ (n ++ x :: a).dropWhile p = x :: a := by
  induction n with
  | nil => simp [List.takeWhile_cons, List.dropWhile_cons, hx]
  | cons c n ih =>
    have hc : p c = true := hn c (by simp)
    have ihh := ih (fun d hd => hn d (by simp [hd]))
    simp [List.takeWhile_cons, List.dropWhile_cons, hc, ihh.1, ihh.2]

theorem getLast?_cons_ne {α : Type} (x : α) (l : List α) (h : l ≠ []) :
    (x :: l).getLast? = l.getLast? := by
  cases l with
  | nil => exact absurd rfl h
  | cons y t => rfl

theorem getLast?_append_ne {α : Type} (l₁ l₂ : List α) (h : l₂ ≠ []) :
    (l₁ ++ l₂).getLast? = l₂.getLast? := by
  induction l₁ with
  | nil => rfl
  | cons x t ih =>
    rw [List.cons_append,
      getLast?_cons_ne x (t ++ l₂) (fun hc => h (List.append_eq_nil.mp hc).2), ih]


/-- C1 (amended): for every registered name `n` made of word characters
and every argument string `a` that is nonempty, free of line terminators
and without trailing whitespace, detection applied to
`"FUNCTION:" ++ n ++ ":" ++ a` finds the name `n` and passes `a` verbatim
to that function's own argument parser (whose outcome is the detection
result). -/
theorem detectFunctionCall_wellformed_call {α : Type} (reg : Registry α)
    (n a : Str) (f : RegEntry α)
    (hn : n ≠ [])
    (hword : ∀ c ∈ n, isWordChar c = true)
    (ha : a ≠ [])
    (hline : ∀ c ∈ a, isLineTerminator c = false)
    (htrail : a.getLast?.all (fun c => !(isJsWhitespace c)) = true)
    (hfound : regGet reg n = some f) :
    detectFunctionCall reg (some (str "FUNCTION:" ++ (n ++ (':' :: a)))) =
      (f.defn.parseArgs a).map (fun v => (n, v)) := by
  have htrail' : ∀ c, a.getLast? = some c → isJsWhitespace c = false := by
    intro c hc
    rw [hc] at htrail
    simpa using htrail
  have htrim : jsTrim (str "FUNCTION:" ++ (n ++ (':' :: a))) =
      str "FUNCTION:" ++ (n ++ (':' :: a)) := by
    apply jsTrim_eq_self
    · intro c hc
      have hh : (str "FUNCTION:" ++ (n ++ (':' :: a))).head? = some 'F' := rfl
      rw [hh] at hc
      cases hc
      decide
    · intro c hc
      rw [getLast?_append_ne (str "FUNCTION:") (n ++ (':' :: a))
            (fun hc2 => List.cons_ne_nil ':' a (List.append_eq_nil.mp hc2).2),
          getLast?_append_ne n (':' :: a) (by simp),
          getLast?_cons_ne ':' a ha] at hc
      exact htrail' c hc
  have hmatch : matchFunctionPattern (str "FUNCTION:" ++ (n ++ (':' :: a))) =
      some (n, a) := by
    obtain ⟨htake, hdrop⟩ :=
      takeWhile_append_break isWordChar n ':' a hword (by decide)
    have hstart : jsStartsWith (str "FUNCTION:" ++ (n ++ (':' :: a)))
        functionCallHeader = true := jsStartsWith_append functionCallHeader _
    have hdropl : (str "FUNCTION:" ++ (n ++ (':' :: a))).drop
        functionCallHeader.length = n ++ (':' :: a) :=
      List.drop_left functionCallHeader _
    simp only [matchFunctionPattern, hstart, if_true, hdropl, hdrop, htake]
    rw [if_pos ⟨hn, ha, hline⟩]
  have hne : (str "FUNCTION:" ++ (n ++ (':' :: a))).isEmpty = false := rfl
  simp only [detectFunctionCall, hne, Bool.false_eq_true, if_false, htrim, hmatch, hfound]
  cases hp : f.defn.parseArgs a <;> simp [hp]

/-- C1 witness: the registered name `showAlert` with argument text
`Build done`. -/
theorem detectFunctionCall_wellformed_call_witness :
    regGet builtinRegistry (str "showAlert") =
      some ⟨str "browser", str "showAlert", showAlertDef⟩ ∧
    detectFunctionCall builtinRegistry
        (some (str "FUNCTION:" ++ (str "showAlert" ++ (':' :: str "Build done")))) =
      (showAlertDef.parseArgs (str "Build done")).map
        (fun v => (str "showAlert", v)) :=
  ⟨rfl,
   detectFunctionCall_wellformed_call builtinRegistry (str "showAlert")
     (str "Build done") ⟨str "browser", str "showAlert", showAlertDef⟩
     (by decide) (by decide) (by decide) (by decide) (by decide) rfl⟩

/-! Helper lemmas for the line buffering of the stream relay. -/

theorem dropLast_cons_ne {α : Type} (x : α) (l : List α) (h : l ≠ []) :
    (x :: l).dropLast = x :: l.dropLast := by
  cases l with
  | nil => exact absurd rfl h
  | cons y t => rfl

theorem dropLast_append_ne {α : Type} (l₁ l₂ : List α) (h : l₂ ≠ []) :
    (l₁ ++ l₂).dropLast = l₁ ++ l₂.dropLast := by
  induction l₁ with
  | nil => rfl
  | cons x t ih =>
    rw [List.cons_append,
      dropLast_cons_ne x (t ++ l₂) (fun hc => h (List.append_eq_nil.mp hc).2),
      ih, List.cons_append]

theorem getLast?_getD_mem {α : Type} (l : List α) (d : α) (h : l ≠ []) :
    l.getLast?.getD d ∈ l := by
  induction l with
  | nil => exact absurd rfl h
  | cons x t ih =>
    cases t with
    | nil => simp [List.getLast?]
    | cons y tt =>
      rw [getLast?_cons_ne x (y :: tt) (by simp)]
      exact List.mem_cons_of_mem _ (ih (by simp))

theorem jsSplit_ne_nil (sep : Char) (l : Str) : jsSplit sep l ≠ [] := by
  cases l with
  | nil => simp [jsSplit]
  | cons c rest =>
    unfold jsSplit
    by_cases h : c = sep <;> simp [h]

theorem jsSplit_eq_single (sep : Char) (l : Str) (h : ∀ c ∈ l, c ≠ sep) :
    jsSplit sep l = [l] := by
  induction l with
  | nil => rfl
  | cons c rest ih =>
    have hc : c ≠ sep := h c (List.mem_cons_self _ _)
    have ihh := ih (fun d hd => h d (List.mem_cons_of_mem _ hd))
    simp [jsSplit, hc, ihh]

theorem jsSplit_no_sep (sep : Char) (l : Str) :
    ∀ s ∈ jsSplit sep l, ∀ c ∈ s, c ≠ sep := by
  induction l with
  | nil =>
    intro s hs
    simp [jsSplit] at hs
    subst hs
    intro c hc
    simp at hc
  | cons d rest ih =>
    intro s hs c hc
    by_cases h : d = sep
    · rw [show jsSplit sep (d :: rest) = [] :: jsSplit sep rest from by
        simp [jsSplit, h]] at hs
      rcases List.mem_cons.mp hs with h1 | h1
      · subst h1; simp at hc
      · exact ih s h1 c hc
    · rw [show jsSplit sep (d :: rest) =
          (d :: (jsSplit sep rest).headI) :: (jsSplit sep rest).tail from by
        simp [jsSplit, h]] at hs
      cases hsp : jsSplit sep rest with
      | nil => exact absurd hsp (jsSplit_ne_nil sep rest)
      | cons s0 ss =>
        rw [hsp] at hs
        simp only [List.headI, List.tail_cons] at hs
        rcases List.mem_cons.mp hs with h1 | h1
        · subst h1
          rcases List.mem_cons.mp hc with h2 | h2
          · subst h2; exact h
          · exact ih s0 (by rw [hsp]; exact List.mem_cons_self _ _) c h2
        · exact ih s (by rw [hsp]; exact List.mem_cons_of_mem _ h1) c hc

theorem jsSplit_append (sep : Char) (a b : Str) :
    jsSplit sep (a ++ b) =
      (jsSplit sep a).dropLast ++
        jsSplit sep ((jsSplit sep a).getLast?.getD [] ++ b) := by
  induction a with
  | nil => simp [jsSplit]
  | cons c a' ih =>
    have hne := jsSplit_ne_nil sep a'
    by_cases h : c = sep
    · subst h
      rw [List.cons_append,
        show jsSplit c (c :: (a' ++ b)) = [] :: jsSplit c (a' ++ b) from by
          simp [jsSplit],
        show jsSplit c (c :: a') = [] :: jsSplit c a' from by simp [jsSplit],
        ih, dropLast_cons_ne _ _ hne, getLast?_cons_ne _ _ hne,
        List.cons_append]
    · rw [List.cons_append,
        show jsSplit sep (c :: (a' ++ b)) =
            (c :: (jsSplit sep (a' ++ b)).headI) :: (jsSplit sep (a' ++ b)).tail
          from by simp [jsSplit, h],
        show jsSplit sep (c :: a') =
            (c :: (jsSplit sep a').headI) :: (jsSplit sep a').tail
          from by simp [jsSplit, h],
        ih]
      cases hsp : jsSplit sep a' with
      | nil => exact absurd hsp hne
      | cons s ss =>
        cases ss with
        | nil =>
          simp only [List.headI, List.tail_cons, List.dropLast_single,
            List.getLast?_singleton, Option.getD_some, List.nil_append]
          simp [jsSplit, h]
          rfl
        | cons s2 ss2 =>
          have hs2 : s2 :: ss2 ≠ [] := by simp
          simp only [List.headI, List.tail_cons]
          rw [dropLast_cons_ne s (s2 :: ss2) hs2,
            getLast?_cons_ne s (s2 :: ss2) hs2,
            dropLast_cons_ne (c :: s) (s2 :: ss2) hs2,
            getLast?_cons_ne (c :: s) (s2 :: ss2) hs2,
            List.cons_append, List.cons_append]
          rfl

theorem processLine_stop_eq (pl : Str → Option OllamaRecord) (res : ResState)
    (line : Str) : (processLine pl res line).2 = isStopLine pl line := by
  by_cases h : (jsTrim line).isEmpty
  · simp [processLine, isStopLine, h]
  · cases hp : pl line with
    | none => simp [processLine, isStopLine, h, hp]
    | some rec =>
      by_cases hd : rec.done
      · simp [processLine, isStopLine, h, hp, hd]
      · simp [processLine, isStopLine, h, hp, hd]

theorem processLine_no_stop (pl : Str → Option OllamaRecord) (res : ResState)
    (line : Str) (h : isStopLine pl line = false) :
    (processLine pl res line).2 = false ∧
    (processLine pl res line).1.writableEnded = res.writableEnded ∧
    ∃ toks, (processLine pl res line).1.log = res.log ++ toks ∧
      ∀ e ∈ toks, isTerminal e = false := by
  by_cases ht : (jsTrim line).isEmpty
  · exact ⟨by simp [processLine, ht], by simp [processLine, ht],
      [], by simp [processLine, ht], by simp⟩
  · cases hp : pl line with
    | none =>
      exact ⟨by simp [processLine, ht, hp], by simp [processLine, ht, hp],
        [], by simp [processLine, ht, hp], by simp⟩
    | some rec =>
      have hd : rec.done = false := by
        simpa [isStopLine, ht, hp] using h
      by_cases hr : jsTruthyStr rec.response
      · exact ⟨by simp [processLine, ht, hp, hd, hr],
          by simp [processLine, ht, hp, hd, hr, resWrite],
          [.token (rec.response.getD [])],
          by simp [processLine, ht, hp, hd, hr, resWrite],
          by simp [isTerminal]⟩
      · exact ⟨by simp [processLine, ht, hp, hd, hr],
          by simp [processLine, ht, hp, hd, hr],
          [], by simp [processLine, ht, hp, hd, hr], by simp⟩

theorem processLine_stop (pl : Str → Option OllamaRecord) (res : ResState)
    (line : Str) (h : isStopLine pl line = true) :
    (processLine pl res line).2 = true ∧
    (processLine pl res line).1.writableEnded = true ∧
    ∃ toks, (processLine pl res line).1.log =
        res.log ++ toks ++ [StreamEvent.done] ∧
      ∀ e ∈ toks, isTerminal e = false := by
  have ht : (jsTrim line).isEmpty = false := by
    cases hc : (jsTrim line).isEmpty
    · rfl
    · simp [isStopLine, hc] at h
  cases hp : pl line with
  | none => simp [isStopLine, ht, hp] at h
  | some rec =>
    have hd : rec.done = true := by
      simpa [isStopLine, ht, hp] using h
    by_cases hr : jsTruthyStr rec.response
    · exact ⟨by simp [processLine, ht, hp, hd, hr],
        by simp [processLine, ht, hp, hd, hr, resWrite, resEnd],
        [.token (rec.response.getD [])],
        by simp [processLine, ht, hp, hd, hr, resWrite, resEnd],
        by simp [isTerminal]⟩
    · exact ⟨by simp [processLine, ht, hp, hd, hr],
        by simp [processLine, ht, hp, hd, hr, resWrite, resEnd],
        [], by simp [processLine, ht, hp, hd, hr, resWrite, resEnd], by simp⟩

theorem processLines_no_stop (pl : Str → Option OllamaRecord) (L : List Str) :
    ∀ res : ResState, (∀ l ∈ L, isStopLine pl l = false) →
    (processLines pl res L).2 = false ∧
    (processLines pl res L).1.writableEnded = res.writableEnded ∧
    ∃ toks, (processLines pl res L).1.log = res.log ++ toks ∧
      ∀ e ∈ toks, isTerminal e = false := by
  induction L with
  | nil =>
    intro res _
    exact ⟨rfl, rfl, [], by simp [processLines], by simp⟩
  | cons x L ih =>
    intro res h
    obtain ⟨h2, hend, toks1, hlog, htoks1⟩ :=
      processLine_no_stop pl res x (h x (List.mem_cons_self _ _))
    cases hpl : processLine pl res x with
    | mk res1 stopped =>
      have hstop : stopped = false := by rw [hpl] at h2; exact h2
      subst hstop
      rw [hpl] at hend hlog
      obtain ⟨ih2, ihend, toks2, ihlog, ihtoks⟩ :=
        ih res1 (fun l hl => h l (List.mem_cons_of_mem _ hl))
      refine ⟨?_, ?_, toks1 ++ toks2, ?_, ?_⟩
      · simp only [processLines, hpl]
        exact ih2
      · simp only [processLines, hpl]
        rw [ihend, hend]
      · simp only [processLines, hpl]
        rw [ihlog, hlog, List.append_assoc]
      · intro e he
        rcases List.mem_append.mp he with h1 | h1
        · exact htoks1 e h1
        · exact ihtoks e h1

theorem processLines_append_no_stop (pl : Str → Option OllamaRecord)
    (l1 : List Str) : ∀ (l2 : List Str) (res : ResState),
    (∀ l ∈ l1, isStopLine pl l = false) →
    processLines pl res (l1 ++ l2) =
      processLines pl (processLines pl res l1).1 l2 := by
  induction l1 with
  | nil => intro l2 res _; simp [processLines]
  | cons x l1 ih =>
    intro l2 res h
    cases hpl : processLine pl res x with
    | mk res1 stopped =>
      have hstop : stopped = false := by
        have he := processLine_stop_eq pl res x
        rw [hpl] at he
        exact he.trans (h x (List.mem_cons_self _ _))
      subst hstop
      simp only [List.cons_append, processLines, hpl]
      exact ih l2 res1 (fun l hl => h l (List.mem_cons_of_mem _ hl))

theorem foldl_onData_eq (pl : Str → Option OllamaRecord) :
    ∀ (chunks : List Str) (res : ResState) (buf : Str),
    (∀ c ∈ buf, c ≠ '\n') →
    (∀ l ∈ (completeLines (buf ++ chunks.flatten)).dropLast,
        isStopLine pl l = false) →
    chunks.foldl (onData pl) ⟨res, buf⟩ =
      ⟨(processLines pl res (completeLines (buf ++ chunks.flatten))).1,
       leftoverSegment (buf ++ chunks.flatten)⟩ := by
  intro chunks
  induction chunks with
  | nil =>
    intro res buf hbuf _
    have h1 : jsSplit '\n' buf = [buf] := jsSplit_eq_single '\n' buf hbuf
    simp [completeLines, leftoverSegment, h1, processLines]
  | cons chunk cs ih =>
    intro res buf hbuf hwf
    rw [List.foldl_cons]
    have hsplitapp := jsSplit_append '\n' (buf ++ chunk) cs.flatten
    have hP1ne : jsSplit '\n' (buf ++ chunk) ≠ [] := jsSplit_ne_nil '\n' _
    have honData : onData pl ⟨res, buf⟩ chunk =
        ⟨(processLines pl res (jsSplit '\n' (buf ++ chunk)).dropLast).1,
         (jsSplit '\n' (buf ++ chunk)).getLast?.getD []⟩ := rfl
    rw [honData]
    have hbufc : ∀ c ∈ (jsSplit '\n' (buf ++ chunk)).getLast?.getD [],
        c ≠ '\n' := fun c hc =>
      jsSplit_no_sep '\n' (buf ++ chunk) _
        (getLast?_getD_mem _ [] hP1ne) c hc
    have htext : buf ++ (chunk :: cs).flatten = (buf ++ chunk) ++ cs.flatten := by
      simp [List.append_assoc]
    have hQne : jsSplit '\n'
        ((jsSplit '\n' (buf ++ chunk)).getLast?.getD [] ++ cs.flatten) ≠ [] :=
      jsSplit_ne_nil _ _
    have hlines : completeLines (buf ++ (chunk :: cs).flatten) =
        (jsSplit '\n' (buf ++ chunk)).dropLast ++
          completeLines ((jsSplit '\n' (buf ++ chunk)).getLast?.getD [] ++
            cs.flatten) := by
      unfold completeLines
      rw [htext, hsplitapp, dropLast_append_ne _ _ hQne]
    have hleft : leftoverSegment (buf ++ (chunk :: cs).flatten) =
        leftoverSegment ((jsSplit '\n' (buf ++ chunk)).getLast?.getD [] ++
          cs.flatten) := by
      unfold leftoverSegment
      rw [htext, hsplitapp, getLast?_append_ne _ _ hQne]
    by_cases hQd : completeLines
        ((jsSplit '\n' (buf ++ chunk)).getLast?.getD [] ++ cs.flatten) = []
    · have hih := ih (processLines pl res
          (jsSplit '\n' (buf ++ chunk)).dropLast).1
        ((jsSplit '\n' (buf ++ chunk)).getLast?.getD []) hbufc
        (by rw [hQd]; simp)
      rw [hih, hQd, hlines, hQd, List.append_nil, hleft]
      rfl
    · have hwfsplit : ∀ l ∈ (jsSplit '\n' (buf ++ chunk)).dropLast,
          isStopLine pl l = false := by
        intro l hl
        apply hwf
        rw [hlines, dropLast_append_ne _ _ hQd]
        exact List.mem_append.mpr (Or.inl hl)
      have hwf2 : ∀ l ∈ (completeLines
          ((jsSplit '\n' (buf ++ chunk)).getLast?.getD [] ++
            cs.flatten)).dropLast, isStopLine pl l = false := by
        intro l hl
        apply hwf
        rw [hlines, dropLast_append_ne _ _ hQd]
        exact List.mem_append.mpr (Or.inr hl)
      have hih := ih (processLines pl res
          (jsSplit '\n' (buf ++ chunk)).dropLast).1
        ((jsSplit '\n' (buf ++ chunk)).getLast?.getD []) hbufc hwf2
      rw [hih, hlines, hleft,
        processLines_append_no_stop pl _ _ res hwfsplit]

/-- C3: for every completed streamed request — the backend's data chunks,
whose complete lines carry a `done` record only in final position, followed
by the stream's `'end'` or `'error'` event — the connection log contains
exactly one terminal event (`done`, or an `error` standing in for it) and
no event after it; and termination of an already-closed response is a
no-op (the `writableEnded` guard). -/
theorem processOllamaStream_terminal (pl : Str → Option OllamaRecord)
    (chunks : List Str) (term : OllamaTerm)
    (hwf : ∀ l ∈ (completeLines chunks.flatten).dropLast,
        isStopLine pl l = false) :
    TerminalOnce (processOllamaStream pl chunks term).log ∧
    (∀ r : ResState, r.writableEnded = true →
      onEnd r = r ∧ ∀ m, onStreamError m r = r) := by
  refine ⟨?_, fun r hr => ⟨by simp [onEnd, hr], fun m => by simp [onStreamError, hr]⟩⟩
  have hfold := foldl_onData_eq pl chunks ({} : ResState) [] (by simp)
    (by simpa using hwf)
  simp only [List.nil_append] at hfold
  unfold processOllamaStream
  rw [show ({} : StreamState) = (⟨({} : ResState), []⟩ : StreamState) from rfl,
    hfold]
  by_cases hstop : ∀ l ∈ completeLines chunks.flatten, isStopLine pl l = false
  · obtain ⟨_, hend, toks, hlog, htoks⟩ :=
      processLines_no_stop pl (completeLines chunks.flatten)
        ({} : ResState) hstop
    have hend' : (processLines pl ({} : ResState)
        (completeLines chunks.flatten)).1.writableEnded = false := hend
    have hlog' : (processLines pl ({} : ResState)
        (completeLines chunks.flatten)).1.log = toks := by
      simpa using hlog
    cases term with
    | streamEnd =>
      simp only [onEnd, hend', Bool.not_false, if_true, resWrite, resEnd]
      exact ⟨toks, .done, by simp [hlog'], rfl, htoks⟩
    | streamError m =>
      simp only [onStreamError, hend', Bool.not_false, resWrite, resEnd]
      exact ⟨toks, .error m, by simp [hlog'], rfl, htoks⟩
  · push_neg at hstop
    obtain ⟨l, hlmem, hlstop0⟩ := hstop
    have hlstop : isStopLine pl l = true := by
      revert hlstop0
      cases isStopLine pl l <;> simp
    have hLne : completeLines chunks.flatten ≠ [] := by
      intro hc
      rw [hc] at hlmem
      simp at hlmem
    have hsplit : (completeLines chunks.flatten).dropLast ++
        [(completeLines chunks.flatten).getLast hLne] =
        completeLines chunks.flatten := List.dropLast_append_getLast hLne
    have hlast : isStopLine pl ((completeLines chunks.flatten).getLast hLne)
        = true := by
      rcases List.mem_append.mp (hsplit ▸ hlmem) with h1 | h1
      · rw [hwf l h1] at hlstop
        exact absurd hlstop (by simp)
      · rw [List.mem_singleton] at h1
        rw [← h1]
        exact hlstop
    obtain ⟨_, hend1, toks1, hlog1, htoks1⟩ :=
      processLines_no_stop pl (completeLines chunks.flatten).dropLast
        ({} : ResState) hwf
    obtain ⟨hs2, hend2, toks2, hlog2, htoks2⟩ :=
      processLine_stop pl
        (processLines pl ({} : ResState)
          (completeLines chunks.flatten).dropLast).1
        ((completeLines chunks.flatten).getLast hLne) hlast
    have hone : processLines pl
        (processLines pl ({} : ResState)
          (completeLines chunks.flatten).dropLast).1
        [(completeLines chunks.flatten).getLast hLne] =
        ((processLine pl
          (processLines pl ({} : ResState)
            (completeLines chunks.flatten).dropLast).1
          ((completeLines chunks.flatten).getLast hLne)).1, true) := by
      cases hpl : processLine pl
          (processLines pl ({} : ResState)
            (completeLines chunks.flatten).dropLast).1
          ((completeLines chunks.flatten).getLast hLne) with
      | mk r st =>
        have : st = true := by rw [hpl] at hs2; exact hs2
        subst this
        simp [processLines, hpl]
    have hfinal : (processLines pl ({} : ResState)
        (completeLines chunks.flatten)).1 =
        (processLine pl
          (processLines pl ({} : ResState)
            (completeLines chunks.flatten).dropLast).1
          ((completeLines chunks.flatten).getLast hLne)).1 := by
      conv_lhs => rw [← hsplit]
      rw [processLines_append_no_stop pl _ _ _ hwf, hone]
    have hlogF : (processLines pl ({} : ResState)
        (completeLines chunks.flatten)).1.log =
        (toks1 ++ toks2) ++ [StreamEvent.done] := by
      rw [hfinal, hlog2, hlog1]
      simp [List.append_assoc]
    have hendF : (processLines pl ({} : ResState)
        (completeLines chunks.flatten)).1.writableEnded = true := by
      rw [hfinal]
      exact hend2
    have htoksF : ∀ e ∈ toks1 ++ toks2, isTerminal e = false := by
      intro e he
      rcases List.mem_append.mp he with h1 | h1
      · exact htoks1 e h1
      · exact htoks2 e h1
    cases term with
    | streamEnd =>
      simp only [onEnd, hendF, Bool.not_true, Bool.false_eq_true, if_false]
      exact ⟨toks1 ++ toks2, .done, hlogF, rfl, htoksF⟩
    | streamError m =>
      simp only [onStreamError, hendF, Bool.not_true, Bool.false_eq_true,
        if_false]
      exact ⟨toks1 ++ toks2, .done, hlogF, rfl, htoksF⟩

/-- C3 witness: a backend stream of two records, the second carrying the
terminal flag, followed by the `'end'` event. -/
theorem processOllamaStream_terminal_witness :
    (∀ l ∈ (completeLines (List.flatten
        [str "\x7b\"done\":false,\"response\":\"Hi\"\x7d\n\x7b\"done\":true,\"response\":\" there\"\x7d\n"])).dropLast,
      isStopLine
        (fun line =>
          if line = str "\x7b\"done\":false,\"response\":\"Hi\"\x7d" then
            some { response := some (str "Hi") }
          else if line = str "\x7b\"done\":true,\"response\":\" there\"\x7d" then
            some { response := some (str " there"), done := true }
          else none) l = false) ∧
    (TerminalOnce
      (processOllamaStream
        (fun line =>
          if line = str "\x7b\"done\":false,\"response\":\"Hi\"\x7d" then
            some { response := some (str "Hi") }
          else if line = str "\x7b\"done\":true,\"response\":\" there\"\x7d" then
            some { response := some (str " there"), done := true }
          else none)
        [str "\x7b\"done\":false,\"response\":\"Hi\"\x7d\n\x7b\"done\":true,\"response\":\" there\"\x7d\n"]
        .streamEnd).log ∧
    (∀ r : ResState, r.writableEnded = true →
      onEnd r = r ∧ ∀ m, onStreamError m r = r)) :=
  ⟨by decide,
   processOllamaStream_terminal
     (fun line =>
       if line = str "\x7b\"done\":false,\"response\":\"Hi\"\x7d" then
         some { response := some (str "Hi") }
       else if line = str "\x7b\"done\":true,\"response\":\" there\"\x7d" then
         some { response := some (str " there"), done := true }
       else none)
     [str "\x7b\"done\":false,\"response\":\"Hi\"\x7d\n\x7b\"done\":true,\"response\":\" there\"\x7d\n"]
     .streamEnd (by decide)⟩
